import Mathlib

/-!
Verification of the libSQL vector-search core (`src/vector.c`, `src/vectorInt.h`)
against its natural-language specification.

The embedding below translates the C source into Lean definitions:
character strings become `List Char`, blobs become `List Nat` (one entry per
byte), fallible routines return `Except` or `Option`, and the opaque DiskANN
engine calls are abstracted as status-returning parameters.  Element values of
type `float` never influence the control flow verified here, so a parsed text
vector is represented by the list of element character tokens it accumulated,
and a blob vector by its raw bytes.
-/

namespace LibsqlVector

/-- `MAX_VECTOR_SZ` from vector.c (the spec's MAX_DIMENSIONS). -/
def MAX_VECTOR_SZ : Nat := 16000

/-- `MAX_FLOAT_CHAR_SZ` from vector.c: capacity of the element scratch buffer. -/
def MAX_FLOAT_CHAR_SZ : Nat := 1024

/-- SQLite status code `SQLITE_OK`. -/
def SQLITE_OK : Int := 0

/-- SQLite status code `SQLITE_NOMEM` (`SQLITE_NOMEM_BKPT`). -/
def SQLITE_NOMEM : Int := 7

/-- `sqlite3Isspace`: ASCII space, tab, newline, vertical tab, form feed,
carriage return — phrased on character codes. -/
def isSpaceC (c : Char) : Bool :=
  c.toNat = 32 || c.toNat = 9 || c.toNat = 10 || c.toNat = 11 || c.toNat = 12 || c.toNat = 13

/-- `sqlite3Isdigit`: ASCII digit test, phrased on character codes. -/
def isDigitC (c : Char) : Bool :=
  decide (48 ≤ c.toNat) && decide (c.toNat ≤ 57)

/-- Drop one leading sign character, as a numeric literal grammar allows. -/
def dropSign (t : List Char) : List Char :=
  match t with
  | [] => []
  | c :: r => if c = '+' || c = '-' then r else c :: r

/-- Validity of an exponent suffix: empty, or `e`/`E`, an optional sign, and a
nonempty digit run. -/
def expOk (r : List Char) : Bool :=
  match r with
  | [] => true
  | c :: r4 =>
    (c = 'e' || c = 'E') &&
      (let r5 := dropSign r4
       decide (r5 ≠ []) && r5.all isDigitC)

/-- What may follow the integer digit run of a numeric literal: nothing, a
fractional part (requiring at least one mantissa digit overall) with an
optional exponent, or an exponent directly.  `ip` is the integer digit run. -/
def afterMant (ip : List Char) (r1 : List Char) : Bool :=
  match r1 with
  | [] => decide (ip ≠ [])
  | c :: r2 =>
    if c = '.' then
      (decide (ip ≠ []) || decide (r2.takeWhile isDigitC ≠ [])) &&
        expOk (r2.dropWhile isDigitC)
    else
      decide (ip ≠ []) && expOk (c :: r2)

/-- Modelled from the spec: `sqlite3AtoF` (SQLite core, not under src/) decides
whether a character run is a valid locale-independent numeric literal — an
optional sign, a digit run with an optional fractional part (at least one
mantissa digit), and an optional scientific-notation exponent.  `vectorParseText`
only ever feeds it whitespace-free runs, so leading-whitespace skipping is not
modelled. -/
def atofValid (t : List Char) : Bool :=
  let t1 := dropSign t
  afterMant (t1.takeWhile isDigitC) (t1.dropWhile isDigitC)

instance {ε α : Type} [DecidableEq ε] [DecidableEq α] : DecidableEq (Except ε α) :=
  fun a b =>
    match a, b with
    | .ok x, .ok y =>
      if h : x = y then .isTrue (by rw [h]) else .isFalse (by intro he; cases he; exact h rfl)
    | .error x, .error y =>
      if h : x = y then .isTrue (by rw [h]) else .isFalse (by intro he; cases he; exact h rfl)
    | .ok _, .error _ => .isFalse (by intro he; cases he)
    | .error _, .ok _ => .isFalse (by intro he; cases he)

/-- Error taxonomy of the spec (section 7). -/
inductive VecErr where
  | invalidInputKind
  | malformed
  | elementTooLong
  | invalidNumber
  | unterminated
  | tooManyDimensions
  | invalidBlobLength
  | dimensionMismatch
  deriving DecidableEq, Repr

/-- The post-loop flush of `vectorParseText` (vector.c:190-200): a nonempty
scratch buffer is parsed as one more element and the element count re-checked
against `MAX_VECTOR_SZ`. -/
def flushTail (buf : List Char) (toks : List (List Char)) :
    Except VecErr (List (List Char)) :=
  if buf.isEmpty then .ok toks
  else if atofValid buf = false then .error .invalidNumber
  else if MAX_VECTOR_SZ ≤ (toks ++ [buf]).length then .error .tooManyDimensions
  else .ok (toks ++ [buf])

/-- The epilogue of `vectorParseText` (vector.c:190-206): flush the tail
element, then require the scan to have stopped at `]` (vector.c:201). -/
def finishScan (sawBracket : Bool) (buf : List Char)
    (toks : List (List Char)) : Except VecErr (List (List Char)) :=
  match flushTail buf toks with
  | .error e => .error e
  | .ok toks' => if sawBracket then .ok toks' else .error .unterminated

/-- The scanning loop of `vectorParseText` (vector.c:164-189).  `buf` is the
element scratch buffer `elBuf` (its length is `bufidx`), `toks` the elements
stored so far (its length is `vecidx`).  The C code stores a character and then
checks `bufidx > MAX_FLOAT_CHAR_SZ`, and stores an element and then checks
`vecidx >= MAX_VECTOR_SZ`; both orderings are mirrored here on the new
lengths. -/
def scanLoop : List Char → List Char → List (List Char) →
    Except VecErr (List (List Char))
  | [], buf, toks => finishScan false buf toks
  | c :: rest, buf, toks =>
    if c = ']' then finishScan true buf toks
    else if isSpaceC c then scanLoop rest buf toks
    else if c = ',' then
      if atofValid buf = false then .error .invalidNumber
      else if MAX_VECTOR_SZ ≤ (toks ++ [buf]).length then .error .tooManyDimensions
      else scanLoop rest [] (toks ++ [buf])
    else
      if MAX_FLOAT_CHAR_SZ < (buf ++ [c]).length then .error .elementTooLong
      else scanLoop rest (buf ++ [c]) toks

/-- `vectorParseText` (vector.c:131-209) on an SQLite TEXT value: skip leading
whitespace, require `[`, then scan.  The result is the list of element tokens;
the vector's dimension count is its length (vector.c:205). -/
def vectorParseText (s : List Char) : Except VecErr (List (List Char)) :=
  match s.dropWhile isSpaceC with
  | [] => .error .malformed
  | c :: rest => if c = '[' then scanLoop rest [] [] else .error .malformed

/-- Instrumented variant of `scanLoop` that additionally records, for every
store `elBuf[bufidx++] = this` the C loop performs (vector.c:170), the index
`bufidx` written to.  The C code performs the store first and only then checks
`bufidx > MAX_FLOAT_CHAR_SZ` (vector.c:171), so the index is recorded even on
the step whose bounds check then fails. -/
def scanLoopT : List Char → List Char → List (List Char) →
    Except VecErr (List (List Char)) × List Nat
  | [], buf, toks => (finishScan false buf toks, [])
  | c :: rest, buf, toks =>
    if c = ']' then (finishScan true buf toks, [])
    else if isSpaceC c then scanLoopT rest buf toks
    else if c = ',' then
      if atofValid buf = false then (.error .invalidNumber, [])
      else if MAX_VECTOR_SZ ≤ (toks ++ [buf]).length then (.error .tooManyDimensions, [])
      else scanLoopT rest [] (toks ++ [buf])
    else
      if MAX_FLOAT_CHAR_SZ < (buf ++ [c]).length then (.error .elementTooLong, [buf.length])
      else
        ((scanLoopT rest (buf ++ [c]) toks).1,
          buf.length :: (scanLoopT rest (buf ++ [c]) toks).2)

/-- `vectorParseText` with the store-index trace of its scanning loop. -/
def vectorParseTextT (s : List Char) :
    Except VecErr (List (List Char)) × List Nat :=
  match s.dropWhile isSpaceC with
  | [] => (.error .malformed, [])
  | c :: rest => if c = '[' then scanLoopT rest [] [] else (.error .malformed, [])

/-- Payload of a parsed vector: the element tokens accumulated from a text
literal, or the raw bytes aliased from a blob. -/
inductive VecData where
  | textToks (toks : List (List Char))
  | blobBytes (b : List Nat)
  deriving DecidableEq, Repr

/-- The `Vector` object of vectorInt.h restricted to what the verified claims
observe: its dimension count `dims` and its data.  The element type is always
`VECTOR_TYPE_FLOAT32`, the only concrete type. -/
structure Vector where
  dims : Nat
  data : VecData
  deriving DecidableEq, Repr

/-- An SQLite runtime value as classified by `sqlite3_value_type`. -/
inductive SqlValue where
  | null
  | text (s : List Char)
  | blob (b : List Nat)
  | other
  deriving DecidableEq, Repr

/-- Modelled from the spec: `vectorF3ParseBlob` (vectorfloat32.c, which is not
under src/) — binary decoding requires the byte length to be an exact multiple
of the 4-byte element size, sets the dimension count to length / 4, and aliases
the bytes directly; any other length fails with `InvalidBlobLength`. -/
def vectorF3ParseBlob (b : List Nat) : Except VecErr Vector :=
  if b.length % 4 = 0 then .ok ⟨b.length / 4, .blobBytes b⟩
  else .error .invalidBlobLength

/-- `vectorParse` (vector.c:226-243): dispatch on the SQLite value type; NULL
and non-text/non-blob values fail before any parsing. -/
def vectorParse (arg : SqlValue) : Except VecErr Vector :=
  match arg with
  | .null => .error .invalidInputKind
  | .blob b => vectorF3ParseBlob b
  | .text s => (vectorParseText s).map (fun toks => ⟨toks.length, .textToks toks⟩)
  | .other => .error .invalidInputKind

/-- `vectorDistanceCosFunc` (vector.c:508-545): parse both arguments, fail with
`DimensionMismatch` when the parsed dimension counts differ, otherwise return
the distance of the two parsed vectors.  The numeric distance computation
(`vectorF32DistanceCos`, not under src/) is abstracted as the parameter
`dist`. -/
def vectorDistanceCosFunc (dist : Vector → Vector → Int) (x y : SqlValue) :
    Except VecErr Int :=
  match vectorParse x with
  | .error e => .error e
  | .ok v1 =>
    match vectorParse y with
    | .error e => .error e
    | .ok v2 =>
      if v1.dims ≠ v2.dims then .error .dimensionMismatch
      else .ok (dist v1 v2)

/-- A FLOAT32 vector as the binary codec sees it: a dimension count and the raw
element bytes. -/
structure F32Vec where
  dims : Nat
  bytes : List Nat
  deriving DecidableEq, Repr

/-- Modelled from the spec: `vectorF32SerializeToBlob` (vectorfloat32.c, not
under src/) — binary encoding writes exactly `dims × 4` raw element bytes into
the destination buffer, and fails with a sentinel when the destination is
smaller than required. -/
def vectorF32SerializeToBlob (v : F32Vec) (blobSize : Nat) : Option (List Nat) :=
  if blobSize < 4 * v.dims then none else some v.bytes

/-- Modelled from the spec: `vectorF32DeserializeFromBlob` (vectorfloat32.c,
not under src/) — binary decoding reads the blob as a packed element array with
no header: the dimension count is the byte length divided by the 4-byte element
size, and the element bytes are taken verbatim. -/
def vectorF32DeserializeFromBlob (b : List Nat) : Option F32Vec :=
  if b.length % 4 = 0 then some ⟨b.length / 4, b⟩ else none

/-- `isInteger` (vector.c:245-247), abstracted over the element value type:
whether `num == (u64)num`. -/
def formatF32 {V B : Type} (isIntegerF : V → Bool) (fmtInt fmtSci : V → List Char)
    (num : V) (str : B) : Nat × B :=
  if isIntegerF num then ((fmtInt num).length, str) else ((fmtSci num).length, str)

/-- The digit-accumulation loop of `parseVectorDims` (vector.c:337-346): walk
characters until `)`, rejecting non-digits, and fail if the string ends before
a `)` is seen. -/
def parseDimsLoop : List Char → Nat → Int
  | [], _ => -1
  | c :: rest, acc =>
    if c = ')' then Int.ofNat acc
    else if isDigitC c then parseDimsLoop rest (acc * 10 + (c.toNat - 48))
    else -1

/-- ASCII lower-casing of one character, as `sqlite3_strnicmp` and
`sqlite3_stricmp` compare. -/
def lowerC (c : Char) : Char :=
  if 65 ≤ c.toNat ∧ c.toNat ≤ 90 then Char.ofNat (c.toNat + 32) else c

/-- `parseVectorDims` (vector.c:333-351): a case-insensitive `FLOAT32(` head
(via `sqlite3_strnicmp`), then the digit loop. -/
def parseVectorDims (z : List Char) : Int :=
  if (z.take 8).map lowerC = "float32(".toList then parseDimsLoop (z.drop 8) 0
  else -1

/-- Value of a digit run, most significant digit first. -/
def digitsVal (ds : List Char) : Nat :=
  ds.foldl (fun a c => a * 10 + (c.toNat - 48)) 0

/-- The spec's words for a declared vector column type, stated independently of
the source: the string is exactly `FLOAT32(` followed by a nonempty digit run
`N` and a closing `)`. -/
def specFloat32TypeMatch (z : List Char) : Bool :=
  let m := z.drop 8
  z.take 8 = "FLOAT32(".toList && decide (m ≠ []) && m.getLast? = some ')' &&
    (let ds := m.dropLast
     decide (ds ≠ []) && ds.all isDigitC)

/-- Errors of `vectorIndexCreate`, one per distinct `sqlite3ErrorMsg` /
early-return site (vector.c:353-391). -/
inductive CreateErr where
  | unknownIndexMethod
  | shadowExecFailed (rc : Int)
  | unsupportedIndexShape
  | invalidVectorType
  deriving DecidableEq, Repr

/-- Outcome of `vectorIndexCreate`: whether the `%s_shadow` backing table was
provisioned, how many times `diskAnnCreateIndex` was invoked, and the returned
status (`ok` carries the engine's status, propagated verbatim). -/
structure CreateResult where
  shadowProvisioned : Bool
  engineCalls : Nat
  result : Except CreateErr Int
  deriving DecidableEq, Repr

/-- `vectorIndexCreate` after its distance-operator loop (vector.c:373-390):
provision the shadow table, require a single key column, parse the declared
column type, and hand `(name, nDims, ops)` to `diskAnnCreateIndex`, whose
status (a function of the dimension count here) is returned unchanged. -/
def vectorIndexCreateAfterMethod (nKeyCol : Nat) (colType : List Char)
    (execRc : Int) (engineCreate : Nat → Int) : CreateResult :=
  if execRc ≠ SQLITE_OK then ⟨false, 0, .error (.shadowExecFailed execRc)⟩
  else if nKeyCol ≠ 1 then ⟨true, 0, .error .unsupportedIndexShape⟩
  else if parseVectorDims colType < 0 then ⟨true, 0, .error .invalidVectorType⟩
  else ⟨true, 1, .ok (engineCreate (parseVectorDims colType).toNat)⟩

/-- `vectorIndexCreate` (vector.c:353-391).  The `pUsing` loop either breaks on
a first token equal (case-insensitively) to `diskann_cosine_ops`, or reports
`Unknown indexing method` and returns before the shadow table is provisioned;
with an empty token list the loop body never runs and creation proceeds with
`nDistanceOps = 0`. -/
def vectorIndexCreate (zUsing : List (List Char)) (nKeyCol : Nat)
    (colType : List Char) (execRc : Int) (engineCreate : Nat → Int) : CreateResult :=
  match zUsing with
  | [] => vectorIndexCreateAfterMethod nKeyCol colType execRc engineCreate
  | u :: _ =>
    if u.map lowerC = "diskann_cosine_ops".toList then
      vectorIndexCreateAfterMethod nKeyCol colType execRc engineCreate
    else ⟨false, 0, .error .unknownIndexMethod⟩

/-- Modelled from the spec: `vectorF32InitFromBlob` (vectorfloat32.c, not under
src/), as used by `vectorInitStatic` (vector.c:107-117) — a `Borrowed` vector
aliasing the blob's bytes, its dimension count derived from the byte length. -/
def vectorInitStaticF32 (b : List Nat) : Vector :=
  ⟨b.length / 4, .blobBytes b⟩

/-- `vectorIndexInsert` (vector.c:393-411): build a static vector over the
row's blob column, call `diskAnnInsert` once with `(vector, rowid)`, and return
0.  The engine's status (`engineInsert v rowid`) is computed and discarded by
the C code; the second component records the engine invocations made. -/
def vectorIndexInsert (engineInsert : Vector → Int → Int) (vecBlob : List Nat)
    (rowid : Int) : Int × List (Vector × Int) :=
  let v := vectorInitStaticF32 vecBlob
  let _s := engineInsert v rowid
  (0, [(v, rowid)])

/-- `vectorIndexCursorInit` (vector.c:413-434): allocate the cursor, then call
`diskAnnOpenIndex` once; a non-OK status is returned as-is, otherwise
`SQLITE_OK`.  Returns the status and the number of `diskAnnOpenIndex` calls. -/
def vectorIndexCursorInit (allocOk : Bool) (openRc : Int) : Int × Nat :=
  if allocOk = false then (SQLITE_NOMEM, 0)
  else if openRc ≠ SQLITE_OK then (openRc, 1)
  else (SQLITE_OK, 1)

/-- The canonical text literal `[e1,...,en]` the claims quantify over:
comma-joined element tokens between brackets, with no interior whitespace. -/
def commaJoin : List (List Char) → List Char
  | [] => []
  | [t] => t
  | t :: ts => t ++ ',' :: commaJoin ts

/-- `[` ++ e1 `,` ... `,` en ++ `]`. -/
def mkLiteral (toks : List (List Char)) : List Char :=
  '[' :: (commaJoin toks ++ [']'])

/-- A character that the scanning loop accumulates rather than interprets:
neither whitespace, nor the separator `,`, nor the terminator `]`. -/
def plainC (c : Char) : Bool :=
  !(isSpaceC c) && decide (c.toNat ≠ 44) && decide (c.toNat ≠ 93)

/-- A well-formed element: a valid numeric literal that fits the scratch
buffer. -/
def goodTok (t : List Char) : Prop :=
  atofValid t = true ∧ t.length ≤ MAX_FLOAT_CHAR_SZ

instance (t : List Char) : Decidable (goodTok t) :=
  inferInstanceAs (Decidable (atofValid t = true ∧ t.length ≤ MAX_FLOAT_CHAR_SZ))

/-! ### Character-class lemmas -/

theorem plainC_iff (c : Char) : plainC c = true ↔
    c.toNat ≠ 32 ∧ c.toNat ≠ 9 ∧ c.toNat ≠ 10 ∧ c.toNat ≠ 11 ∧ c.toNat ≠ 12 ∧
      c.toNat ≠ 13 ∧ c.toNat ≠ 44 ∧ c.toNat ≠ 93 := by
  simp only [plainC, isSpaceC, Bool.and_eq_true, Bool.not_eq_true',
    Bool.or_eq_false_iff, decide_eq_false_iff_not, decide_eq_true_eq]
  tauto

theorem isDigitC_iff (c : Char) : isDigitC c = true ↔ 48 ≤ c.toNat ∧ c.toNat ≤ 57 := by
  simp [isDigitC]

theorem plainC_of_digit {c : Char} (h : isDigitC c = true) : plainC c = true := by
  rcases (isDigitC_iff c).1 h with ⟨h1, h2⟩
  exact (plainC_iff c).2 (by omega)

theorem plainC_of_toNat {c : Char} {n : Nat} (h : c.toNat = n)
    (hn : n ∉ ([32, 9, 10, 11, 12, 13, 44, 93] : List Nat)) : plainC c = true := by
  apply (plainC_iff c).2
  simp only [List.mem_cons, not_or] at hn
  omega

theorem char_ne_of_toNat_ne {c d : Char} (h : c.toNat ≠ d.toNat) : c ≠ d :=
  fun he => h (by rw [he])

theorem mem_dropSign_cases {t : List Char} {c : Char} (hc : c ∈ t) :
    c.toNat = 43 ∨ c.toNat = 45 ∨ c ∈ dropSign t := by
  cases t with
  | nil => cases hc
  | cons a r =>
    by_cases ha : (a = '+' || a = '-') = true
    · rcases List.mem_cons.1 hc with he | hr
      · subst he
        rcases Bool.or_eq_true_iff.1 ha with h | h
        · exact Or.inl (by rw [of_decide_eq_true h]; decide)
        · exact Or.inr (Or.inl (by rw [of_decide_eq_true h]; decide))
      · exact Or.inr (Or.inr (by simpa [dropSign, ha] using hr))
    · exact Or.inr (Or.inr (by simpa [dropSign, ha] using hc))

theorem expOk_plain {r : List Char} (h : expOk r = true) : ∀ c ∈ r, plainC c = true := by
  intro c hc
  cases r with
  | nil => cases hc
  | cons c0 r4 =>
    simp only [expOk, Bool.and_eq_true, Bool.or_eq_true_iff, decide_eq_true_eq,
      List.all_eq_true] at h
    rcases List.mem_cons.1 hc with he | hr
    · subst he
      rcases h.1 with h0 | h0 <;>
        exact plainC_of_toNat (by rw [h0]) (by decide)
    · rcases mem_dropSign_cases hr with h43 | h45 | hd
      · exact plainC_of_toNat h43 (by decide)
      · exact plainC_of_toNat h45 (by decide)
      · exact plainC_of_digit (h.2.2 c hd)

theorem atofValid_plain {t : List Char} (h : atofValid t = true) :
    ∀ c ∈ t, plainC c = true := by
  intro c hc
  rcases mem_dropSign_cases hc with h43 | h45 | h1
  · exact plainC_of_toNat h43 (by decide)
  · exact plainC_of_toNat h45 (by decide)
  · have hsplit : (dropSign t).takeWhile isDigitC ++ (dropSign t).dropWhile isDigitC =
        dropSign t :=
      List.takeWhile_append_dropWhile isDigitC (dropSign t)
    rcases List.mem_append.1 (by rw [hsplit]; exact h1) with hip | hr1
    · exact plainC_of_digit (List.mem_takeWhile_imp hip)
    · have h' : afterMant ((dropSign t).takeWhile isDigitC)
          ((dropSign t).dropWhile isDigitC) = true := h
      rcases hr : (dropSign t).dropWhile isDigitC with _ | ⟨c1, r2⟩
      · rw [hr] at hr1; cases hr1
      · rw [hr] at h' hr1
        by_cases hdot : c1 = '.'
        · rw [afterMant, if_pos hdot] at h'
          simp only [Bool.and_eq_true] at h'
          rcases List.mem_cons.1 hr1 with he | hm
          · exact plainC_of_toNat (by rw [he, hdot]) (by decide)
          · have hsplit2 : r2.takeWhile isDigitC ++ r2.dropWhile isDigitC = r2 :=
              List.takeWhile_append_dropWhile isDigitC r2
            rcases List.mem_append.1 (by rw [hsplit2]; exact hm) with hfp | hr3
            · exact plainC_of_digit (List.mem_takeWhile_imp hfp)
            · exact expOk_plain h'.2 c hr3
        · rw [afterMant, if_neg hdot] at h'
          simp only [Bool.and_eq_true] at h'
          exact expOk_plain h'.2 c hr1

theorem atofValid_ne_nil {t : List Char} (h : atofValid t = true) : t ≠ [] := by
  intro he
  subst he
  simp [atofValid, dropSign, afterMant] at h

theorem plainC_ne_rbracket {c : Char} (h : plainC c = true) : c ≠ ']' := by
  intro he
  subst he
  exact ((plainC_iff _).1 h).2.2.2.2.2.2.2 (by decide)

theorem plainC_ne_comma {c : Char} (h : plainC c = true) : c ≠ ',' := by
  intro he
  subst he
  exact ((plainC_iff _).1 h).2.2.2.2.2.2.1 (by decide)

theorem isSpaceC_false_of_plain {c : Char} (h : plainC c = true) : isSpaceC c = false := by
  simp only [plainC, Bool.and_eq_true, Bool.not_eq_true'] at h
  exact h.1.1

/-! ### Lemmas about the scanning loop -/

/-- The instrumented loop computes the same parse result as the plain one. -/
theorem scanLoopT_fst : ∀ (s buf : List Char) (toks : List (List Char)),
    (scanLoopT s buf toks).1 = scanLoop s buf toks := by
  intro s
  induction s with
  | nil => intro buf toks; rfl
  | cons c rest ih =>
    intro buf toks
    rw [scanLoopT, scanLoop]
    by_cases h1 : c = ']'
    · rw [if_pos h1, if_pos h1]
    · rw [if_neg h1, if_neg h1]
      by_cases h2 : isSpaceC c
      · rw [if_pos h2, if_pos h2]
        exact ih buf toks
      · rw [if_neg h2, if_neg h2]
        by_cases h3 : c = ','
        · rw [if_pos h3, if_pos h3]
          by_cases h4 : atofValid buf = false
          · rw [if_pos h4, if_pos h4]
          · rw [if_neg h4, if_neg h4]
            by_cases h5 : MAX_VECTOR_SZ ≤ (toks ++ [buf]).length
            · rw [if_pos h5, if_pos h5]
            · rw [if_neg h5, if_neg h5]
              exact ih [] (toks ++ [buf])
        · rw [if_neg h3, if_neg h3]
          by_cases h6 : MAX_FLOAT_CHAR_SZ < (buf ++ [c]).length
          · rw [if_pos h6, if_pos h6]
          · rw [if_neg h6, if_neg h6]
            exact ih (buf ++ [c]) toks

/-- Running the loop over a run of one plain character long enough to overflow
the scratch buffer: the parse fails with `ElementTooLong`, and the loop has
stored at index `MAX_FLOAT_CHAR_SZ` — one past the last valid index of the
1024-byte `elBuf`. -/
theorem scanLoopT_run (c : Char) (hc : plainC c = true) :
    ∀ (k : Nat) (buf : List Char) (toks : List (List Char)),
    buf.length ≤ MAX_FLOAT_CHAR_SZ → MAX_FLOAT_CHAR_SZ + 1 ≤ buf.length + k →
    (scanLoopT (List.replicate k c) buf toks).1 = .error .elementTooLong ∧
      MAX_FLOAT_CHAR_SZ ∈ (scanLoopT (List.replicate k c) buf toks).2 := by
  intro k
  induction k with
  | zero =>
    intro buf toks h1 h2
    exact absurd h2 (by omega)
  | succ k ih =>
    intro buf toks h1 h2
    rw [List.replicate_succ, scanLoopT, if_neg (plainC_ne_rbracket hc),
      if_neg (by rw [isSpaceC_false_of_plain hc]; exact Bool.false_ne_true),
      if_neg (plainC_ne_comma hc)]
    by_cases hfull : buf.length = MAX_FLOAT_CHAR_SZ
    · rw [if_pos (by simp [hfull])]
      exact ⟨rfl, by rw [hfull]; exact List.mem_cons_self _ _⟩
    · rw [if_neg (by simp; omega)]
      have hrec := ih (buf ++ [c]) toks (by simp; omega) (by simp; omega)
      exact ⟨hrec.1, List.mem_cons_of_mem _ hrec.2⟩

/-- Scanning a run of plain characters that fits in the scratch buffer just
accumulates it. -/
theorem scanLoop_token : ∀ (t rest buf : List Char) (toks : List (List Char)),
    (∀ c ∈ t, plainC c = true) → buf.length + t.length ≤ MAX_FLOAT_CHAR_SZ →
    scanLoop (t ++ rest) buf toks = scanLoop rest (buf ++ t) toks := by
  intro t
  induction t with
  | nil =>
    intro rest buf toks _ _
    rw [List.nil_append, List.append_nil]
  | cons c t' ih =>
    intro rest buf toks hpl hlen
    have hc := hpl c (List.mem_cons_self c t')
    rw [List.cons_append, scanLoop, if_neg (plainC_ne_rbracket hc),
      if_neg (by rw [isSpaceC_false_of_plain hc]; exact Bool.false_ne_true),
      if_neg (plainC_ne_comma hc),
      if_neg (by simp at hlen ⊢; omega)]
    rw [ih rest (buf ++ [c]) toks (fun d hd => hpl d (List.mem_cons_of_mem c hd))
      (by simp at hlen ⊢; omega)]
    simp

/-- Scanning the comma-joined well-formed tokens followed by `]` with `acc`
elements already stored: success with all elements exactly when the total stays
below `MAX_VECTOR_SZ`, and `TooManyDimensions` otherwise. -/
theorem scanLoop_lit : ∀ (toks acc : List (List Char)),
    (∀ t ∈ toks, goodTok t) → acc.length < MAX_VECTOR_SZ →
    scanLoop (commaJoin toks ++ [']']) [] acc =
      if acc.length + toks.length < MAX_VECTOR_SZ then .ok (acc ++ toks)
      else .error .tooManyDimensions := by
  intro toks
  induction toks with
  | nil =>
    intro acc _ hacc
    rw [if_pos (by simpa using hacc)]
    simp [commaJoin, scanLoop, finishScan, flushTail]
  | cons t ts ih =>
    intro acc hgood hacc
    have hat : atofValid t = true := (hgood t (List.mem_cons_self t ts)).1
    have htl : t.length ≤ MAX_FLOAT_CHAR_SZ := (hgood t (List.mem_cons_self t ts)).2
    have hpl : ∀ c ∈ t, plainC c = true := atofValid_plain hat
    have hne : t ≠ [] := atofValid_ne_nil hat
    cases ts with
    | nil =>
      show scanLoop (t ++ [']']) [] acc = _
      rw [scanLoop_token t [']'] [] acc hpl (by simpa using htl)]
      rw [scanLoop, if_pos rfl, finishScan, flushTail, List.nil_append,
        if_neg (by simpa using hne), if_neg (by simp [hat])]
      by_cases hcnt : MAX_VECTOR_SZ ≤ (acc ++ [t]).length
      · rw [if_pos hcnt, if_neg (by simp at hcnt ⊢; omega)]
      · rw [if_neg hcnt, if_pos (by simp at hcnt ⊢; omega)]
        rfl
    | cons t2 ts2 =>
      show scanLoop ((t ++ ',' :: commaJoin (t2 :: ts2)) ++ [']']) [] acc = _
      rw [List.append_assoc, scanLoop_token t _ [] acc hpl (by simpa using htl),
        List.cons_append, scanLoop, if_neg (by decide),
        if_neg (by rw [show isSpaceC ',' = false from rfl]; exact Bool.false_ne_true),
        if_pos rfl, List.nil_append,
        if_neg (by simp [hat])]
      by_cases hcnt : MAX_VECTOR_SZ ≤ (acc ++ [t]).length
      · rw [if_pos hcnt, if_neg (by simp at hcnt ⊢; omega)]
      · rw [if_neg hcnt,
          ih (acc ++ [t]) (fun u hu => hgood u (List.mem_cons_of_mem t hu))
            (by simp at hcnt ⊢; omega)]
        by_cases hall : acc.length + (t :: t2 :: ts2).length < MAX_VECTOR_SZ
        · rw [if_pos (by simp at hall ⊢; omega), if_pos hall]
          simp
        · rw [if_neg (by simp at hall ⊢; omega), if_neg hall]

/-- Scanning the comma-joined well-formed tokens with no closing `]`: the scan
runs off the end of the input and fails with `UnterminatedLiteral` (or
`TooManyDimensions` when the element count overflows first). -/
theorem scanLoop_noBracket : ∀ (toks acc : List (List Char)),
    (∀ t ∈ toks, goodTok t) → acc.length < MAX_VECTOR_SZ →
    scanLoop (commaJoin toks) [] acc =
      if acc.length + toks.length < MAX_VECTOR_SZ then .error .unterminated
      else .error .tooManyDimensions := by
  intro toks
  induction toks with
  | nil =>
    intro acc _ hacc
    rw [if_pos (by simpa using hacc)]
    simp [commaJoin, scanLoop, finishScan, flushTail]
  | cons t ts ih =>
    intro acc hgood hacc
    have hat : atofValid t = true := (hgood t (List.mem_cons_self t ts)).1
    have htl : t.length ≤ MAX_FLOAT_CHAR_SZ := (hgood t (List.mem_cons_self t ts)).2
    have hpl : ∀ c ∈ t, plainC c = true := atofValid_plain hat
    have hne : t ≠ [] := atofValid_ne_nil hat
    cases ts with
    | nil =>
      show scanLoop t [] acc = _
      rw [← List.append_nil t, scanLoop_token t [] [] acc hpl (by simpa using htl)]
      rw [scanLoop, finishScan, flushTail, List.nil_append,
        if_neg (by simpa using hne), if_neg (by simp [hat])]
      by_cases hcnt : MAX_VECTOR_SZ ≤ (acc ++ [t]).length
      · rw [if_pos hcnt, if_neg (by simp at hcnt ⊢; omega)]
      · rw [if_neg hcnt, if_pos (by simp at hcnt ⊢; omega)]
        rfl
    | cons t2 ts2 =>
      show scanLoop (t ++ ',' :: commaJoin (t2 :: ts2)) [] acc = _
      rw [scanLoop_token t _ [] acc hpl (by simpa using htl),
        scanLoop, if_neg (by decide),
        if_neg (by rw [show isSpaceC ',' = false from rfl]; exact Bool.false_ne_true),
        if_pos rfl, List.nil_append,
        if_neg (by simp [hat])]
      by_cases hcnt : MAX_VECTOR_SZ ≤ (acc ++ [t]).length
      · rw [if_pos hcnt, if_neg (by simp at hcnt ⊢; omega)]
      · rw [if_neg hcnt,
          ih (acc ++ [t]) (fun u hu => hgood u (List.mem_cons_of_mem t hu))
            (by simp at hcnt ⊢; omega)]
        by_cases hall : acc.length + (t :: t2 :: ts2).length < MAX_VECTOR_SZ
        · rw [if_pos (by simp at hall ⊢; omega), if_pos hall]
        · rw [if_neg (by simp at hall ⊢; omega), if_neg hall]

/-- Once the scan reaches a `]`, everything after it is irrelevant. -/
theorem scanLoop_ignore : ∀ (s rest buf : List Char) (toks : List (List Char)),
    ']' ∉ s →
    scanLoop (s ++ ']' :: rest) buf toks = scanLoop (s ++ [']']) buf toks := by
  intro s
  induction s with
  | nil =>
    intro rest buf toks _
    rw [List.nil_append, List.nil_append, scanLoop, scanLoop, if_pos rfl, if_pos rfl]
  | cons c s' ih =>
    intro rest buf toks hmem
    have hcne : c ≠ ']' := fun he => hmem (he ▸ List.mem_cons_self c s')
    have hmem' : ']' ∉ s' := fun hm => hmem (List.mem_cons_of_mem c hm)
    rw [List.cons_append, List.cons_append, scanLoop, scanLoop, if_neg hcne, if_neg hcne]
    by_cases h2 : isSpaceC c
    · rw [if_pos h2, if_pos h2]
      exact ih rest buf toks hmem'
    · rw [if_neg h2, if_neg h2]
      by_cases h3 : c = ','
      · rw [if_pos h3, if_pos h3]
        by_cases h4 : atofValid buf = false
        · rw [if_pos h4, if_pos h4]
        · rw [if_neg h4, if_neg h4]
          by_cases h5 : MAX_VECTOR_SZ ≤ (toks ++ [buf]).length
          · rw [if_pos h5, if_pos h5]
          · rw [if_neg h5, if_neg h5]
            exact ih rest [] (toks ++ [buf]) hmem'
      · rw [if_neg h3, if_neg h3]
        by_cases h6 : MAX_FLOAT_CHAR_SZ < (buf ++ [c]).length
        · rw [if_pos h6, if_pos h6]
        · rw [if_neg h6, if_neg h6]
          exact ih rest (buf ++ [c]) toks hmem'

/-- A run of one plain character long enough to overflow the scratch buffer
makes the plain loop fail with `ElementTooLong`, whatever follows the run. -/
theorem scanLoop_run_err (c : Char) (hc : plainC c = true) :
    ∀ (k : Nat) (rest buf : List Char) (toks : List (List Char)),
    buf.length ≤ MAX_FLOAT_CHAR_SZ → MAX_FLOAT_CHAR_SZ + 1 ≤ buf.length + k →
    scanLoop (List.replicate k c ++ rest) buf toks = .error .elementTooLong := by
  intro k
  induction k with
  | zero =>
    intro rest buf toks h1 h2
    exact absurd h2 (by omega)
  | succ k ih =>
    intro rest buf toks h1 h2
    rw [List.replicate_succ, List.cons_append, scanLoop,
      if_neg (plainC_ne_rbracket hc),
      if_neg (by rw [isSpaceC_false_of_plain hc]; exact Bool.false_ne_true),
      if_neg (plainC_ne_comma hc)]
    by_cases hfull : buf.length = MAX_FLOAT_CHAR_SZ
    · rw [if_pos (by simp [hfull])]
    · rw [if_neg (by simp; omega)]
      exact ih rest (buf ++ [c]) toks (by simp; omega) (by simp; omega)

/-- Reduction of `vectorParseText` on a string that starts with `[`. -/
theorem vectorParseText_bracket (r : List Char) :
    vectorParseText ('[' :: r) = scanLoop r [] [] := by
  rw [vectorParseText, List.dropWhile_cons_of_neg (by decide)]
  simp

/-- Reduction of `vectorParseTextT` on a string that starts with `[`. -/
theorem vectorParseTextT_bracket (r : List Char) :
    vectorParseTextT ('[' :: r) = scanLoopT r [] [] := by
  rw [vectorParseTextT, List.dropWhile_cons_of_neg (by decide)]
  simp

/-- Parsing the canonical literal built from well-formed tokens: success with
exactly those tokens below `MAX_VECTOR_SZ`, `TooManyDimensions` at or above
it. -/
theorem vectorParseText_mkLiteral (toks : List (List Char))
    (h : ∀ t ∈ toks, goodTok t) :
    vectorParseText (mkLiteral toks) =
      if toks.length < MAX_VECTOR_SZ then .ok toks
      else .error .tooManyDimensions := by
  rw [mkLiteral, vectorParseText_bracket, scanLoop_lit toks [] h (by decide)]
  simp

/-- A nonempty all-digit run is a valid numeric literal. -/
theorem atofValid_all_digits {t : List Char} (hne : t ≠ [])
    (hd : ∀ c ∈ t, isDigitC c = true) : atofValid t = true := by
  have hds : dropSign t = t := by
    cases t with
    | nil => rfl
    | cons a r =>
      have ha := hd a (List.mem_cons_self a r)
      rw [isDigitC_iff] at ha
      rw [dropSign, if_neg ?_]
      simp only [Bool.or_eq_true, decide_eq_true_eq, not_or]
      constructor <;> intro he <;> subst he <;> simp at ha
  have htw : t.takeWhile isDigitC = t := List.takeWhile_eq_self_iff.2 hd
  have hdw : t.dropWhile isDigitC = [] := List.dropWhile_eq_nil_iff.2 hd
  show afterMant ((dropSign t).takeWhile isDigitC) ((dropSign t).dropWhile isDigitC) = true
  rw [hds, htw, hdw, afterMant]
  simpa using hne

/-- The digit loop of `parseVectorDims` on a digit run followed by `)`:
accumulates the run's value; anything after the `)` is never examined. -/
theorem parseDimsLoop_digits : ∀ (ds rest : List Char) (acc : Nat),
    ds.all isDigitC = true →
    parseDimsLoop (ds ++ ')' :: rest) acc =
      Int.ofNat (ds.foldl (fun a c => a * 10 + (c.toNat - 48)) acc) := by
  intro ds
  induction ds with
  | nil =>
    intro rest acc _
    rw [List.nil_append, parseDimsLoop, if_pos rfl, List.foldl_nil]
  | cons d ds' ih =>
    intro rest acc hall
    simp only [List.all_cons, Bool.and_eq_true] at hall
    have hd9 : d ≠ ')' := by
      have := (isDigitC_iff d).1 hall.1
      exact char_ne_of_toNat_ne (by simp; omega)
    rw [List.cons_append, parseDimsLoop, if_neg hd9, if_pos hall.1, List.foldl_cons]
    exact ih rest _ hall.2

/-- The digit loop fails on every input that is not a digit run followed by
`)`. -/
theorem parseDimsLoop_neg : ∀ (t : List Char) (acc : Nat),
    (¬ ∃ ds rest, t = ds ++ ')' :: rest ∧ ds.all isDigitC = true) →
    parseDimsLoop t acc = -1 := by
  intro t
  induction t with
  | nil => intro acc _; rfl
  | cons c t' ih =>
    intro acc hno
    by_cases hc : c = ')'
    · exact absurd ⟨[], t', by rw [hc, List.nil_append], rfl⟩ hno
    · rw [parseDimsLoop, if_neg hc]
      by_cases hdg : isDigitC c
      · rw [if_pos hdg]
        apply ih
        rintro ⟨ds, rest, ht', hall⟩
        exact hno ⟨c :: ds, rest, by rw [List.cons_append, ← ht'],
          by simp [List.all_cons, hdg, hall]⟩
      · rw [if_neg hdg]

/-! ### Claim theorems -/

/-- C1 (amended): for every canonical text literal `[e1,...,en]` whose elements
are valid numeric literals of at most `MAX_FLOAT_CHAR_SZ` (1024) characters,
decoding succeeds with dimension count exactly `n` when `n < MAX_DIMENSIONS`
(16000); a parse whose element count reaches `MAX_DIMENSIONS` fails with
`TooManyDimensions`; and the empty bracket pair decodes to a zero-dimension
vector. -/
theorem vectorParseText_dims_amended (toks : List (List Char))
    (h : ∀ t ∈ toks, goodTok t) :
    (toks.length < MAX_VECTOR_SZ →
      vectorParse (.text (mkLiteral toks)) = .ok ⟨toks.length, .textToks toks⟩) ∧
    (MAX_VECTOR_SZ ≤ toks.length →
      vectorParse (.text (mkLiteral toks)) = .error .tooManyDimensions) ∧
    vectorParse (.text ['[', ']']) = .ok ⟨0, .textToks []⟩ := by
  have hm := vectorParseText_mkLiteral toks h
  refine ⟨fun hlt => ?_, fun hge => ?_, by decide⟩
  · show (vectorParseText (mkLiteral toks)).map _ = _
    rw [hm, if_pos hlt]
    rfl
  · show (vectorParseText (mkLiteral toks)).map _ = _
    rw [hm, if_neg (by omega)]
    rfl

/-- C1 witness: the three-element literal `[1,2,3]` decodes with dimension
count 3. -/
theorem vectorParseText_dims_amended_witness :
    vectorParse (.text (mkLiteral [['1'], ['2'], ['3']])) =
      .ok ⟨3, .textToks [['1'], ['2'], ['3']]⟩ :=
  (vectorParseText_dims_amended [['1'], ['2'], ['3']] (by decide)).1 (by decide)

/-- C1 counterexample: a literal with a single element that is a valid numeric
literal of 1025 characters — so `n = 1 < MAX_DIMENSIONS` and every element is
numerically valid — nevertheless fails (with `ElementTooLong`), refuting the
claim that decoding succeeds for every such literal. -/
theorem vectorParseText_longElement_counterexample :
    atofValid (List.replicate 1025 '2') = true ∧
    (1 : Nat) < MAX_VECTOR_SZ ∧
    vectorParse (.text (mkLiteral [List.replicate 1025 '2'])) =
      .error .elementTooLong := by
  refine ⟨?_, by decide, ?_⟩
  · exact atofValid_all_digits
      (by
        intro he
        have h := congrArg List.length he
        rw [List.length_replicate, List.length_nil] at h
        exact absurd h (by decide))
      (fun c hc => by rw [List.eq_of_mem_replicate hc]; decide)
  · have hparse : vectorParseText (mkLiteral [List.replicate 1025 '2']) =
        .error .elementTooLong := by
      rw [mkLiteral, vectorParseText_bracket,
        show commaJoin [List.replicate 1025 '2'] = List.replicate 1025 '2' from rfl]
      exact scanLoop_run_err '2' (by decide) 1025 [']'] [] [] (by decide) (by decide)
    simp only [vectorParse, hparse]
    rfl

/-- C2 (confirmed, spec-modelled): binary-decoding the blob produced by
binary-encoding a FLOAT32 vector reproduces its dimension count and element
bytes exactly, for every dimension count below `MAX_DIMENSIONS` and every
sufficiently large destination buffer. -/
theorem blob_roundtrip (v : F32Vec) (hlen : v.bytes.length = 4 * v.dims)
    (hdims : v.dims < MAX_VECTOR_SZ) :
    ∀ cap : Nat, 4 * v.dims ≤ cap →
    vectorF32SerializeToBlob v cap = some v.bytes ∧
    vectorF32DeserializeFromBlob v.bytes = some v := by
  intro cap hcap
  constructor
  · rw [vectorF32SerializeToBlob, if_neg (by omega)]
  · rw [vectorF32DeserializeFromBlob,
      if_pos (by rw [hlen]; exact Nat.mul_mod_right 4 v.dims)]
    cases v with
    | mk d b =>
      simp only at hlen
      simp [hlen, Nat.mul_div_cancel_left]

/-- C2 witness: the one-dimensional vector whose element bytes are the
little-endian encoding of 1.0f round-trips. -/
theorem blob_roundtrip_witness :
    vectorF32SerializeToBlob ⟨1, [0, 0, 128, 63]⟩ 4 = some [0, 0, 128, 63] ∧
    vectorF32DeserializeFromBlob [0, 0, 128, 63] = some ⟨1, [0, 0, 128, 63]⟩ :=
  blob_roundtrip ⟨1, [0, 0, 128, 63]⟩ (by decide) (by decide) 4 (by decide)

/-- C3 (code bug): on the input `[` followed by 1025 copies of `1`, the parse
fails with `ElementTooLong`, but the scanning loop has already stored an
element character at buffer index `MAX_FLOAT_CHAR_SZ` (1024) — at, not below,
the capacity of the 1024-byte scratch buffer — because the C code stores at
`elBuf[bufidx++]` before checking `bufidx > MAX_FLOAT_CHAR_SZ`. -/
theorem scanLoop_oob_store :
    (vectorParseTextT ('[' :: List.replicate 1025 '1')).1 = .error .elementTooLong ∧
    MAX_FLOAT_CHAR_SZ ∈ (vectorParseTextT ('[' :: List.replicate 1025 '1')).2 := by
  rw [vectorParseTextT_bracket]
  exact scanLoopT_run '1' (by decide) 1025 [] [] (by decide) (by decide)

/-- C4 (amended): `vectorIndexCreate` fails with `UnknownIndexMethod` exactly
when the distance-operator token list is nonempty and its first token is not
(case-insensitively) `diskann_cosine_ops`; an absent token does not fail and
creation proceeds with the cosine operator; in the failure case neither the
shadow storage is provisioned nor the engine invoked. -/
theorem vectorIndexCreate_unknownMethod_amended (zUsing : List (List Char))
    (nKeyCol : Nat) (colType : List Char) (execRc : Int) (engineCreate : Nat → Int) :
    ((vectorIndexCreate zUsing nKeyCol colType execRc engineCreate).result =
        .error .unknownIndexMethod ↔
      ∃ u us, zUsing = u :: us ∧ u.map lowerC ≠ "diskann_cosine_ops".toList) ∧
    ((vectorIndexCreate zUsing nKeyCol colType execRc engineCreate).result =
        .error .unknownIndexMethod →
      (vectorIndexCreate zUsing nKeyCol colType execRc engineCreate).shadowProvisioned
          = false ∧
      (vectorIndexCreate zUsing nKeyCol colType execRc engineCreate).engineCalls = 0) := by
  have hafter : ∀ (n : Nat) (ct : List Char) (e : Int) (f : Nat → Int),
      (vectorIndexCreateAfterMethod n ct e f).result ≠ .error .unknownIndexMethod := by
    intro n ct e f
    rw [vectorIndexCreateAfterMethod]
    split_ifs <;> simp
  cases zUsing with
  | nil =>
    constructor
    · constructor
      · intro h
        exact absurd h (hafter _ _ _ _)
      · rintro ⟨u, us, h, -⟩
        cases h
    · intro h
      exact absurd h (hafter _ _ _ _)
  | cons u us =>
    by_cases hcos : u.map lowerC = "diskann_cosine_ops".toList
    · rw [show vectorIndexCreate (u :: us) nKeyCol colType execRc engineCreate =
          vectorIndexCreateAfterMethod nKeyCol colType execRc engineCreate from by
        rw [vectorIndexCreate, if_pos hcos]]
      constructor
      · constructor
        · intro h
          exact absurd h (hafter _ _ _ _)
        · rintro ⟨u', us', he, hne⟩
          injection he with he1 he2
          exact absurd (he1 ▸ hcos) hne
      · intro h
        exact absurd h (hafter _ _ _ _)
    · rw [show vectorIndexCreate (u :: us) nKeyCol colType execRc engineCreate =
          ⟨false, 0, .error .unknownIndexMethod⟩ from by
        rw [vectorIndexCreate, if_neg hcos]]
      exact ⟨⟨fun _ => ⟨u, us, rfl, hcos⟩, fun _ => rfl⟩, fun _ => ⟨rfl, rfl⟩⟩

/-- C4 witness: a first token other than the cosine operator fails with
`UnknownIndexMethod` without provisioning shadow storage. -/
theorem vectorIndexCreate_unknownMethod_amended_witness :
    (vectorIndexCreate ["euclidean_ops".toList] 1 "FLOAT32(2)".toList SQLITE_OK
        (fun _ => 0)).shadowProvisioned = false := by
  have h := vectorIndexCreate_unknownMethod_amended ["euclidean_ops".toList] 1
    "FLOAT32(2)".toList SQLITE_OK (fun _ => 0)
  exact (h.2 (h.1.mpr ⟨"euclidean_ops".toList, [], rfl, by decide⟩)).1

/-- C4 counterexample: with the distance-operator token absent (empty token
list), creation does not fail with `UnknownIndexMethod` — it provisions the
shadow storage, invokes the engine, and returns its status — refuting the
claim that an absent token fails. -/
theorem vectorIndexCreate_emptyUsing_counterexample :
    vectorIndexCreate [] 1 "FLOAT32(3)".toList SQLITE_OK (fun _ => 5) =
      ⟨true, 1, .ok 5⟩ ∧
    (vectorIndexCreate [] 1 "FLOAT32(3)".toList SQLITE_OK (fun _ => 5)).result ≠
      .error .unknownIndexMethod := by
  constructor
  · decide
  · decide

/-- C5 (amended): `diskAnnCreateIndex`'s and `diskAnnOpenIndex`'s statuses are
propagated verbatim, each engine operation being invoked exactly once with no
retries; but `vectorIndexInsert` invokes `diskAnnInsert` once and then discards
its status, returning 0 unconditionally. -/
theorem engine_status_propagation_amended :
    (∀ (colType : List Char) (execRc : Int) (engineCreate : Nat → Int) (u : List Char),
      u.map lowerC = "diskann_cosine_ops".toList → execRc = SQLITE_OK →
      ¬ parseVectorDims colType < 0 →
      (vectorIndexCreate [u] 1 colType execRc engineCreate).result =
          .ok (engineCreate (parseVectorDims colType).toNat) ∧
      (vectorIndexCreate [u] 1 colType execRc engineCreate).engineCalls = 1) ∧
    (∀ openRc : Int, vectorIndexCursorInit true openRc = (openRc, 1)) ∧
    (∀ (engineInsert : Vector → Int → Int) (b : List Nat) (rowid : Int),
      (vectorIndexInsert engineInsert b rowid).1 = 0 ∧
      (vectorIndexInsert engineInsert b rowid).2 =
        [(vectorInitStaticF32 b, rowid)]) := by
  refine ⟨?_, ?_, fun f b r => ⟨rfl, rfl⟩⟩
  · intro colType execRc engineCreate u hcos hexec hdims
    rw [vectorIndexCreate, if_pos hcos, vectorIndexCreateAfterMethod,
      if_neg (by rw [hexec]; simp), if_neg (by simp), if_neg hdims]
    exact ⟨rfl, rfl⟩
  · intro openRc
    rw [vectorIndexCursorInit, if_neg (by simp)]
    by_cases h : openRc ≠ SQLITE_OK
    · rw [if_pos h]
    · rw [if_neg h, not_not.1 h]

/-- C5 witness: a concrete create call propagates the engine status built from
the parsed dimension count. -/
theorem engine_status_propagation_amended_witness :
    (vectorIndexCreate ["diskann_cosine_ops".toList] 1 "FLOAT32(4)".toList SQLITE_OK
        (fun n => Int.ofNat n)).result = .ok 4 := by
  have h := engine_status_propagation_amended.1 "FLOAT32(4)".toList SQLITE_OK
    (fun n => Int.ofNat n) "diskann_cosine_ops".toList (by decide) rfl (by decide)
  exact h.1.trans (by decide)

/-- C5 counterexample: the engine's insert status 5 is not propagated —
`vectorIndexInsert` returns 0 — refuting verbatim propagation for the insert
path. -/
theorem vectorIndexInsert_status_counterexample :
    (vectorIndexInsert (fun _ _ => 5) [0, 0, 128, 63] 1).1 = 0 ∧
    (fun (_ : Vector) (_ : Int) => (5 : Int)) (vectorInitStaticF32 [0, 0, 128, 63]) 1
        = 5 ∧
    (0 : Int) ≠ 5 := ⟨rfl, rfl, by decide⟩

/-- C6 (confirmed): when both inputs decode, `vector_distance_cos` fails with
`DimensionMismatch` whenever the decoded dimension counts differ — without
invoking the distance computation, as the result is the same for every
distance function — and returns the distance of the two decoded vectors when
they agree. -/
theorem vectorDistanceCosFunc_dims (x y : SqlValue) (v1 v2 : Vector)
    (h1 : vectorParse x = .ok v1) (h2 : vectorParse y = .ok v2) :
    (v1.dims ≠ v2.dims → ∀ dist : Vector → Vector → Int,
      vectorDistanceCosFunc dist x y = .error .dimensionMismatch) ∧
    (v1.dims = v2.dims → ∀ dist : Vector → Vector → Int,
      vectorDistanceCosFunc dist x y = .ok (dist v1 v2)) := by
  constructor
  · intro hd dist
    rw [vectorDistanceCosFunc, h1, h2]
    exact if_pos hd
  · intro hd dist
    rw [vectorDistanceCosFunc, h1, h2]
    exact if_neg (not_not_intro hd)

/-- C6 witness: `[1]` against `[1,2]` fails with `DimensionMismatch` for a
concrete distance function. -/
theorem vectorDistanceCosFunc_dims_witness :
    vectorDistanceCosFunc (fun _ _ => 7) (.text "[1]".toList) (.text "[1,2]".toList) =
      .error .dimensionMismatch :=
  (vectorDistanceCosFunc_dims (.text "[1]".toList) (.text "[1,2]".toList)
    ⟨1, .textToks [['1']]⟩ ⟨2, .textToks [['1'], ['2']]⟩ (by decide) (by decide)).1
    (by decide) (fun _ _ => 7)

/-- C7 (confirmed): a text input whose first non-whitespace character is not
`[` (or which has none) fails with `MalformedLiteral`; a text input that is a
`[`-headed canonical sequence of well-formed elements with no closing `]`
fails with `UnterminatedLiteral`. -/
theorem vectorParseText_bracket_errors :
    (∀ s : List Char, (s.dropWhile isSpaceC).head? ≠ some '[' →
      vectorParseText s = .error .malformed) ∧
    (∀ toks : List (List Char), (∀ t ∈ toks, goodTok t) →
      toks.length < MAX_VECTOR_SZ →
      vectorParseText ('[' :: commaJoin toks) = .error .unterminated) := by
  constructor
  · intro s h
    rw [vectorParseText]
    rcases hd : s.dropWhile isSpaceC with _ | ⟨c, rest⟩
    · rfl
    · rw [hd] at h
      have hc : c ≠ '[' := fun he => h (by rw [he]; rfl)
      simp only [if_neg hc]
  · intro toks hg hlen
    rw [vectorParseText_bracket, scanLoop_noBracket toks [] hg (by decide),
      if_pos (by simpa using hlen)]

/-- C7 witness: `1]` is malformed and `[1` unterminated. -/
theorem vectorParseText_bracket_errors_witness :
    vectorParseText ['1', ']'] = .error .malformed ∧
    vectorParseText ('[' :: commaJoin [['1']]) = .error .unterminated :=
  ⟨vectorParseText_bracket_errors.1 ['1', ']'] (by decide),
    vectorParseText_bracket_errors.2 [['1']] (by decide) (by decide)⟩

/-- C8 (amended): `parseVectorDims` succeeds exactly when the declared type
string starts, case-insensitively, with `FLOAT32(` followed by a possibly
empty digit run and a `)`; the digit run's value (0 when empty) becomes the
dimension count handed to the engine, and characters after the `)` are
ignored; on every other string index creation fails with `InvalidVectorType`
after the method check. -/
theorem parseVectorDims_amended (z : List Char) :
    (0 ≤ parseVectorDims z ↔
      ∃ ds rest, (z.take 8).map lowerC = "float32(".toList ∧
        z.drop 8 = ds ++ ')' :: rest ∧ ds.all isDigitC = true) ∧
    (∀ ds rest, (z.take 8).map lowerC = "float32(".toList →
      z.drop 8 = ds ++ ')' :: rest → ds.all isDigitC = true →
      parseVectorDims z = Int.ofNat (digitsVal ds)) ∧
    (∀ engineCreate : Nat → Int,
      (parseVectorDims z < 0 →
        (vectorIndexCreateAfterMethod 1 z SQLITE_OK engineCreate).result =
          .error .invalidVectorType) ∧
      (0 ≤ parseVectorDims z →
        (vectorIndexCreateAfterMethod 1 z SQLITE_OK engineCreate).result =
          .ok (engineCreate (parseVectorDims z).toNat))) := by
  refine ⟨?_, ?_, ?_⟩
  · by_cases hpre : (z.take 8).map lowerC = "float32(".toList
    · rw [parseVectorDims, if_pos hpre]
      by_cases hex : ∃ ds rest, z.drop 8 = ds ++ ')' :: rest ∧ ds.all isDigitC = true
      · obtain ⟨ds, rest, hdr, hall⟩ := hex
        rw [hdr, parseDimsLoop_digits ds rest 0 hall]
        exact ⟨fun _ => ⟨ds, rest, hpre, rfl, hall⟩, fun _ => Int.ofNat_nonneg _⟩
      · rw [parseDimsLoop_neg _ 0 hex]
        constructor
        · intro h
          exact absurd h (by decide)
        · rintro ⟨ds, rest, -, hdr, hall⟩
          exact absurd ⟨ds, rest, hdr, hall⟩ hex
    · rw [parseVectorDims, if_neg hpre]
      constructor
      · intro h
        exact absurd h (by decide)
      · rintro ⟨ds, rest, hp, -, -⟩
        exact absurd hp hpre
  · intro ds rest hpre hdr hall
    rw [parseVectorDims, if_pos hpre, hdr, parseDimsLoop_digits ds rest 0 hall]
    rfl
  · intro engineCreate
    constructor
    · intro h
      rw [vectorIndexCreateAfterMethod, if_neg (by simp), if_neg (by simp), if_pos h]
    · intro h
      rw [vectorIndexCreateAfterMethod, if_neg (by simp), if_neg (by simp),
        if_neg (by omega)]

/-- C8 witness: `FLOAT32(12)` parses to dimension count 12. -/
theorem parseVectorDims_amended_witness :
    parseVectorDims "FLOAT32(12)".toList = Int.ofNat (digitsVal ['1', '2']) :=
  (parseVectorDims_amended "FLOAT32(12)".toList).2.1 ['1', '2'] []
    (by decide) (by decide) (by decide)

/-- C8 counterexample: `FLOAT32(3)x` is not of the form `FLOAT32(<N>)`, yet
`parseVectorDims` accepts it (returning 3) and index creation's
type-validation step succeeds on it, refuting the claimed exact
characterization. -/
theorem parseVectorDims_trailing_counterexample :
    parseVectorDims "FLOAT32(3)x".toList = 3 ∧
    specFloat32TypeMatch "FLOAT32(3)x".toList = false ∧
    (vectorIndexCreateAfterMethod 1 "FLOAT32(3)x".toList SQLITE_OK
        (fun n => Int.ofNat n)).result = .ok 3 := by
  refine ⟨by decide, by decide, by decide⟩

/-- C9 (code bug): `formatF32` computes the length the chosen rendering would
have — the 64-bit-integer rendering when `isInteger` holds and the
6-fractional-digit scientific rendering otherwise — but never writes to its
output-string argument: the string the caller passed comes back untouched for
every value and every rendering. -/
theorem formatF32_output (V B : Type) (isIntegerF : V → Bool)
    (fmtInt fmtSci : V → List Char) (num : V) (str : B) :
    (formatF32 isIntegerF fmtInt fmtSci num str).2 = str ∧
    (formatF32 isIntegerF fmtInt fmtSci num str).1 =
      (if isIntegerF num then (fmtInt num).length else (fmtSci num).length) := by
  rw [formatF32]
  by_cases h : isIntegerF num
  · rw [if_pos h, if_pos h]
    exact ⟨rfl, rfl⟩
  · rw [if_neg h, if_neg h]
    exact ⟨rfl, rfl⟩

/-- C10 (confirmed): literal decoding stops at the first `]` and ignores
everything after it — the parse of `[` ++ s ++ `]` ++ rest equals the parse of
`[` ++ s ++ `]` for every `]`-free `s` — and concretely `[1,2]xyz` decodes as
the 2-dimension vector `[1,2]`. -/
theorem vectorParseText_trailing_ignored :
    (∀ s rest : List Char, ']' ∉ s →
      vectorParseText ('[' :: (s ++ ']' :: rest)) =
        vectorParseText ('[' :: (s ++ [']']))) ∧
    vectorParse (.text "[1,2]xyz".toList) = .ok ⟨2, .textToks [['1'], ['2']]⟩ := by
  constructor
  · intro s rest h
    rw [vectorParseText_bracket, vectorParseText_bracket]
    exact scanLoop_ignore s rest [] [] h
  · decide

/-- C10 witness: the trailing-characters law applied at `s = "1,2"` and
`rest = "xyz"`. -/
theorem vectorParseText_trailing_ignored_witness :
    vectorParseText ('[' :: ("1,2".toList ++ ']' :: "xyz".toList)) =
      vectorParseText ('[' :: ("1,2".toList ++ [']'])) :=
  vectorParseText_trailing_ignored.1 "1,2".toList "xyz".toList (by decide)

end LibsqlVector
